import Mathlib

/-!
Verification of the sprite batching and sort-order engine.

The engine accumulates per-frame draw requests (`Draw`) between `Begin` and
`End`, sorts an index table over the sprite record store by the composite key
(sortLayer, orderInLayer, submission sequence), partitions the sorted order
into texture-homogeneous batches bounded by a per-batch capacity, and counts
one draw call per batch.

The repository excerpt contains the test suite and callers of the engine
(`tests/test_sprite_batch.cpp`, `engine/debug/debug_draw.cpp`, ...) but not
the implementation file `engine/graphics2d/sprite_batch.{h,cpp}` itself, so
the engine below is modelled from the specification's contracts (spec §3,
§4.1-4.4, §7) and checked against the properties the spec and tests state.
-/

namespace SpriteBatch

/-- Modelled from the spec: `SpriteRecord` (spec §3) — one submitted draw
request.  The sort-relevant fields (texture reference, sort layer,
order-in-layer, submission sequence) are kept exactly; the remaining draw
parameters (position, tint color, rotation, origin, scale, flip flags),
which are floating-point/boolean data never inspected by sorting or
batching, are abstracted into the single opaque `payload` marker field (the
spec itself suggests a marker field for payload-immobility checks).  The
texture reference is a non-owning handle, modelled as a `Nat` identity.
Sort layer and order-in-layer are full-range signed integers, modelled as
`Int`; the submission sequence number is assigned at append time. -/
structure SpriteRecord where
  texture : Nat
  payload : Nat
  sortLayer : Int
  orderInLayer : Int
  seq : Nat
deriving DecidableEq, Inhabited

/-- Modelled from the spec: the capacity ceiling `MaxSpritesPerBatch`
(spec §4.3), "a fixed configured maximum".  Its numeric value is not in the
excerpt (the tests refer to it only symbolically as
`SpriteBatch::MaxSpritesPerBatch`), so a representative constant is used
here; all capacity theorems are stated for an arbitrary positive capacity. -/
def MaxSpritesPerBatch : Nat := 2048

/-- Modelled from the spec: the Frame Session state (spec §3) — the sprite
record store (submission order, never reordered), the index/order table, the
session-open flag, the engine-initialized flag and the draw-call counter.
The sprite counter is derived as `records.length`. -/
structure SpriteBatchState where
  initialized : Bool
  sessionOpen : Bool
  records : List SpriteRecord
  indices : List Nat
  drawCallCount : Nat
deriving DecidableEq, Inhabited

/-- Modelled from the spec: the engine state before `Initialize` — closed
session, empty stores, zero counters. -/
def initState : SpriteBatchState :=
  ⟨false, false, [], [], 0⟩

/-- The record the index table entry `i` designates (spec §3: `IndexEntry`
is a small integer indexing into the SpriteRecord store). -/
def recordAt (recs : List SpriteRecord) (i : Nat) : SpriteRecord :=
  recs.getD i default

/-- Modelled from the spec: the Sort Engine's composite key comparison
(spec §4.2) — lexicographic ≤ on `(sortLayer, orderInLayer,
submissionSequence)`, over full-range signed integers for layer and order. -/
def lexLE (a b : SpriteRecord) : Prop :=
  a.sortLayer < b.sortLayer ∨
    (a.sortLayer = b.sortLayer ∧ (a.orderInLayer < b.orderInLayer ∨
      (a.orderInLayer = b.orderInLayer ∧ a.seq ≤ b.seq)))

instance lexLE.decidable (a b : SpriteRecord) : Decidable (lexLE a b) :=
  inferInstanceAs (Decidable (a.sortLayer < b.sortLayer ∨
    (a.sortLayer = b.sortLayer ∧ (a.orderInLayer < b.orderInLayer ∨
      (a.orderInLayer = b.orderInLayer ∧ a.seq ≤ b.seq)))))

/-- The key comparison lifted to index entries through the record store. -/
def idxLE (recs : List SpriteRecord) (i j : Nat) : Prop :=
  lexLE (recordAt recs i) (recordAt recs j)

instance idxLE.decidable (recs : List SpriteRecord) : DecidableRel (idxLE recs) :=
  fun i j => lexLE.decidable (recordAt recs i) (recordAt recs j)

/-- Modelled from the spec: the Sort Engine (spec §4.2) — a stable sort over
the index/order table keyed through the record store; stability is obtained
by the explicit submission-sequence third key (one of the two realizations
the spec allows).  Complexity targets are not modelled; the sort is
specified by its ordering contract. -/
def sortIndices (recs : List SpriteRecord) (idxs : List Nat) : List Nat :=
  List.insertionSort (idxLE recs) idxs

/-- Modelled from the spec: a `Batch` (spec §3) — a contiguous run of sorted
index entries sharing one texture.  The run is represented by the list of
its index entries (the spec's start offset and count are the position and
length of this run inside the sorted table). -/
structure Batch where
  texture : Nat
  entries : List Nat
deriving DecidableEq, Inhabited

/-- The texture handle of the record designated by index entry `i`. -/
def texOf (recs : List SpriteRecord) (i : Nat) : Nat :=
  (recordAt recs i).texture

/-- Modelled from the spec: the Batch Builder's walk (spec §4.3) — `cur` is
the in-progress batch (reversed) with texture `tex`; a new batch starts
exactly when the current record's texture differs or the in-progress batch
has reached the capacity ceiling. -/
def buildAux (recs : List SpriteRecord) (cap : Nat) :
    List Nat → Nat → List Nat → List Batch
  | [], tex, cur => [⟨tex, cur.reverse⟩]
  | i :: rest, tex, cur =>
    if texOf recs i = tex ∧ cur.length < cap then
      buildAux recs cap rest tex (i :: cur)
    else
      ⟨tex, cur.reverse⟩ :: buildAux recs cap rest (texOf recs i) [i]

/-- Modelled from the spec: the Batch Builder (spec §4.3) — partition the
sorted index/order table into maximal texture-homogeneous runs bounded by
the capacity `cap`; zero sprites yield zero batches. -/
def buildBatches (recs : List SpriteRecord) (cap : Nat) : List Nat → List Batch
  | [] => []
  | i :: rest => buildAux recs cap rest (texOf recs i) [i]

/-- Modelled from the spec: `Initialize` (spec §4.1 and the initialization
test) — succeeds, and a second consecutive call while already initialized
succeeds without error and changes nothing. -/
def Initialize (s : SpriteBatchState) : Bool × SpriteBatchState :=
  if s.initialized then (true, s)
  else (true, { initState with initialized := true })

/-- Modelled from the spec: `Shutdown` — releases the engine; the state
returns to the uninitialized starting state. -/
def Shutdown (_s : SpriteBatchState) : SpriteBatchState :=
  initState

/-- Modelled from the spec: `Begin` (spec §4.1, §5) — opens a new frame
session, resetting the sprite record store, the index/order table and the
counters; re-entrant `Begin` is an idempotent reset that discards the
in-flight session. -/
def Begin (s : SpriteBatchState) : SpriteBatchState :=
  { s with sessionOpen := true, records := [], indices := [], drawCallCount := 0 }

/-- Modelled from the spec: `Draw` (spec §4.1) — appends one `SpriteRecord`
and one `IndexEntry`.  With no open session the call is ignored; a null
texture (`none`) is silently ignored.  The submission sequence number is
the record's append position.  The non-key draw parameters are the opaque
`payload` (see `SpriteRecord`). -/
def Draw (s : SpriteBatchState) (tex : Option Nat) (payload : Nat)
    (sortLayer orderInLayer : Int) : SpriteBatchState :=
  if s.sessionOpen = false then s
  else
    match tex with
    | none => s
    | some t =>
      { s with
        records := s.records ++
          [⟨t, payload, sortLayer, orderInLayer, s.records.length⟩],
        indices := s.indices ++ [s.records.length] }

/-- Modelled from the spec: `End` (spec §4.1, §4.4) — with no open session
the call is ignored; otherwise it sorts the index/order table, partitions it
into batches, counts one draw call per batch handed off, and closes the
session.  Counters remain readable until the next `Begin`. -/
def End (cap : Nat) (s : SpriteBatchState) : SpriteBatchState :=
  if s.sessionOpen = false then s
  else
    { s with
      sessionOpen := false,
      indices := sortIndices s.records s.indices,
      drawCallCount := (buildBatches s.records cap (sortIndices s.records s.indices)).length }

/-- Modelled from the spec: `GetSpriteCount` — the submitted-sprite counter
of the most recent session. -/
def GetSpriteCount (s : SpriteBatchState) : Nat :=
  s.records.length

/-- Modelled from the spec: `GetDrawCallCount` — draw calls issued by the
most recent completed frame. -/
def GetDrawCallCount (s : SpriteBatchState) : Nat :=
  s.drawCallCount

/-- The realized draw order of a frame: the sprite records read off through
the index/order table in table order (spec §4.4: batches resolve the sorted
table through to `SpriteRecord`s). -/
def realizedOrder (s : SpriteBatchState) : List SpriteRecord :=
  s.indices.map (recordAt s.records)

/-- A frame's submission script: each element is one valid `Draw` call,
giving the (non-null) texture handle, the opaque payload, the sort layer
and the order-in-layer. -/
def applyDraws (s : SpriteBatchState) (ds : List (Nat × Nat × Int × Int)) :
    SpriteBatchState :=
  ds.foldl (fun st d => Draw st (some d.1) d.2.1 d.2.2.1 d.2.2.2) s

/-- The record a `Draw` call appends when the store already holds `start`
records. -/
def mkRecord (start : Nat) (d : Nat × Nat × Int × Int) : SpriteRecord :=
  ⟨d.1, d.2.1, d.2.2.1, d.2.2.2, start⟩

/-- The records a submission script appends, starting at sequence number
`start`. -/
def mkRecords : Nat → List (Nat × Nat × Int × Int) → List SpriteRecord
  | _, [] => []
  | start, d :: ds => mkRecord start d :: mkRecords (start + 1) ds

end SpriteBatch

namespace SpriteBatch

/-- The composite key comparison is total. -/
theorem lexLE_total (a b : SpriteRecord) : lexLE a b ∨ lexLE b a := by
  unfold lexLE
  omega

/-- The composite key comparison is transitive. -/
theorem lexLE_trans (a b c : SpriteRecord) (h1 : lexLE a b) (h2 : lexLE b c) :
    lexLE a c := by
  unfold lexLE at h1 h2 ⊢
  omega

/-- The sorted index table is pairwise ordered by the composite key. -/
theorem sortIndices_sorted (recs : List SpriteRecord) (idxs : List Nat) :
    List.Pairwise (idxLE recs) (sortIndices recs idxs) := by
  haveI : IsTotal Nat (idxLE recs) := ⟨fun i j => lexLE_total _ _⟩
  haveI : IsTrans Nat (idxLE recs) := ⟨fun i j k => lexLE_trans _ _ _⟩
  exact List.sorted_insertionSort (idxLE recs) idxs

/-- Sorting permutes the index table. -/
theorem sortIndices_perm (recs : List SpriteRecord) (idxs : List Nat) :
    List.Perm (sortIndices recs idxs) idxs :=
  List.perm_insertionSort (idxLE recs) idxs

/-- Reading the whole store through the identity index table gives the store. -/
theorem map_recordAt_range (recs : List SpriteRecord) :
    (List.range recs.length).map (recordAt recs) = recs := by
  apply List.ext_getElem
  · simp
  · intro i h1 h2
    simp [recordAt, List.getD_eq_getElem?_getD, List.getElem?_eq_getElem, h2]

/-- Unfolding of a valid `Draw` call in an open session. -/
theorem Draw_some_open (s : SpriteBatchState) (h : s.sessionOpen = true)
    (t payload : Nat) (L O : Int) :
    Draw s (some t) payload L O =
      { s with
        records := s.records ++ [mkRecord s.records.length (t, payload, L, O)],
        indices := s.indices ++ [s.records.length] } := by
  simp [Draw, h, mkRecord]

/-- Running a submission script in an open session appends the script's
records (sequence-numbered from the current store size) and the matching
index entries. -/
theorem applyDraws_open (ds : List (Nat × Nat × Int × Int)) :
    ∀ (s : SpriteBatchState), s.sessionOpen = true →
    applyDraws s ds = { s with
      records := s.records ++ mkRecords s.records.length ds,
      indices := s.indices ++ List.range' s.records.length ds.length } := by
  induction ds with
  | nil =>
    intro s h
    simp [applyDraws, mkRecords]
  | cons d ds ih =>
    intro s h
    obtain ⟨ini, so, recs, idxs, dcc⟩ := s
    simp only [SpriteBatchState.sessionOpen] at h
    subst h
    have hd : applyDraws ⟨ini, true, recs, idxs, dcc⟩ (d :: ds)
        = applyDraws (Draw ⟨ini, true, recs, idxs, dcc⟩ (some d.1) d.2.1 d.2.2.1 d.2.2.2) ds :=
      rfl
    rw [hd, Draw_some_open _ rfl, ih _ rfl]
    simp [mkRecords, mkRecord, List.range'_succ, List.append_assoc]

/-- A submission script appends one record per entry. -/
theorem mkRecords_length (ds : List (Nat × Nat × Int × Int)) :
    ∀ (start : Nat), (mkRecords start ds).length = ds.length := by
  induction ds with
  | nil => intro start; simp [mkRecords]
  | cons d ds ih => intro start; simp [mkRecords, ih]

/-- The sequence numbers of a submission script's records are consecutive
from the starting store size. -/
theorem mkRecords_map_seq (ds : List (Nat × Nat × Int × Int)) :
    ∀ (start : Nat),
      (mkRecords start ds).map SpriteRecord.seq = List.range' start ds.length := by
  induction ds with
  | nil => intro start; simp [mkRecords]
  | cons d ds ih => intro start; simp [mkRecords, mkRecord, List.range'_succ, ih]

end SpriteBatch

namespace SpriteBatch

/-- `End` never touches the sprite record store. -/
theorem End_records (cap : Nat) (s : SpriteBatchState) :
    (End cap s).records = s.records := by
  unfold End
  split <;> rfl

/-- On an open session, `End` sorts the index table and closes the session. -/
theorem End_open (cap : Nat) (s : SpriteBatchState) (h : s.sessionOpen = true) :
    End cap s = { s with
      sessionOpen := false,
      indices := sortIndices s.records s.indices,
      drawCallCount := (buildBatches s.records cap (sortIndices s.records s.indices)).length } := by
  simp [End, h]

/-- A full valid cycle (`Begin`, a script of valid `Draw` calls, `End`)
reports exactly the script's length as the sprite count, from any prior
state. -/
theorem spriteCount_after_cycle (cap : Nat) (s : SpriteBatchState)
    (ds : List (Nat × Nat × Int × Int)) :
    GetSpriteCount (End cap (applyDraws (Begin s) ds)) = ds.length := by
  have h := applyDraws_open ds (Begin s) (by simp [Begin])
  rw [GetSpriteCount, End_records, h]
  simp [Begin, mkRecords_length]

/-- A concrete open frame used by witnesses: three valid draws with mixed
layers and textures. -/
def frameW : SpriteBatchState :=
  applyDraws (Begin initState) [(1, 0, 3, 0), (2, 0, 1, 7), (1, 0, 1, 2)]

/-- C1: for every frame session, after `End()` the realized draw order of
the submitted sprites is sorted by the composite key (sortLayer,
orderInLayer): for consecutive output positions the first record's
sortLayer is ≤ the second's, and when the sortLayers are equal the first
record's orderInLayer is ≤ the second's. -/
theorem end_draw_order_sorted (cap : Nat) (s : SpriteBatchState)
    (h : s.sessionOpen = true) :
    List.Chain' (fun a b => a.sortLayer ≤ b.sortLayer ∧
        (a.sortLayer = b.sortLayer → a.orderInLayer ≤ b.orderInLayer))
      (realizedOrder (End cap s)) := by
  have hre : realizedOrder (End cap s)
      = (sortIndices s.records s.indices).map (recordAt s.records) := by
    simp [End, realizedOrder, h]
  rw [hre]
  apply List.Pairwise.chain'
  rw [List.pairwise_map]
  refine List.Pairwise.imp (fun {i j} hij => ?_) (sortIndices_sorted s.records s.indices)
  unfold idxLE lexLE at hij
  refine ⟨by omega, fun he => by omega⟩

/-- Witness for C1: the sortedness property realized on a concrete frame. -/
theorem end_draw_order_sorted_witness :
    frameW.sessionOpen = true ∧
    List.Chain' (fun a b => a.sortLayer ≤ b.sortLayer ∧
        (a.sortLayer = b.sortLayer → a.orderInLayer ≤ b.orderInLayer))
      (realizedOrder (End 8 frameW)) :=
  ⟨rfl, end_draw_order_sorted 8 frameW rfl⟩

/-- C5: an empty frame is handled without error — `Begin(); End();` with
zero `Draw` calls leaves `GetSpriteCount` and `GetDrawCallCount` at 0 (zero
batches, zero draw calls), from any prior state. -/
theorem empty_frame_zero_counts (cap : Nat) (s : SpriteBatchState) :
    GetSpriteCount (End cap (Begin s)) = 0 ∧
    GetDrawCallCount (End cap (Begin s)) = 0 := by
  simp [Begin, End, GetSpriteCount, GetDrawCallCount, sortIndices, buildBatches]

/-- C6: every lifecycle misuse is a silent no-op — `End` with no open
session leaves the whole state (hence all counters) unchanged; `Draw` with
no open session appends nothing; `Draw` with a null texture appends nothing
even inside an open session. -/
theorem misuse_calls_are_noops (cap : Nat) (s : SpriteBatchState)
    (tex : Option Nat) (payload : Nat) (L O : Int) :
    (s.sessionOpen = false → End cap s = s) ∧
    (s.sessionOpen = false → Draw s tex payload L O = s) ∧
    Draw s none payload L O = s := by
  refine ⟨fun h => by simp [End, h], fun h => by simp [Draw, h], ?_⟩
  by_cases h : s.sessionOpen = false
  · simp [Draw, h]
  · simp [Draw, h]

/-- Witness for C6: the no-op behavior at concrete states. -/
theorem misuse_calls_are_noops_witness :
    initState.sessionOpen = false ∧
    End 4 initState = initState ∧
    Draw initState (some 1) 0 0 0 = initState ∧
    Draw (Begin initState) none 0 0 0 = Begin initState :=
  ⟨rfl, (misuse_calls_are_noops 4 initState (some 1) 0 0 0).1 rfl,
    (misuse_calls_are_noops 4 initState (some 1) 0 0 0).2.1 rfl,
    (misuse_calls_are_noops 4 (Begin initState) none 0 0 0).2.2⟩

/-- The minimum representable 32-bit signed integer. -/
def i32min : Int := -2147483648

/-- The maximum representable 32-bit signed integer. -/
def i32max : Int := 2147483647

/-- C7: the sort key comparison is exact full-range signed comparison — a
frame submitting sort layers max, min, 0 (in that submission order)
realizes the draw order min, 0, max, with no wraparound. -/
theorem extrema_layers_sorted_exactly :
    (realizedOrder (End MaxSpritesPerBatch (applyDraws (Begin initState)
        [(1, 0, i32max, 0), (1, 0, i32min, 0), (1, 0, 0, 0)]))).map
      SpriteRecord.sortLayer = [i32min, 0, i32max] := by
  decide

/-- C8: frame sessions are isolated — after any `Begin`, any script of
valid `Draw` calls and `End`, the sprite count equals the number of sprites
submitted in that session alone, whatever state (including a previously
completed session) the engine started from. -/
theorem session_isolation (cap : Nat) (s : SpriteBatchState)
    (ds : List (Nat × Nat × Int × Int)) :
    GetSpriteCount (End cap (applyDraws (Begin s) ds)) = ds.length :=
  spriteCount_after_cycle cap s ds

end SpriteBatch

namespace SpriteBatch

/-- C2: the sort is stable with respect to submission order — in the
realized draw order of a frame built from any script of valid `Draw` calls,
records with identical (sortLayer, orderInLayer) appear in nondecreasing
submission-sequence order; the realized order is a permutation of the
submitted records; and the submission sequence numbers are exactly the
submission positions 0, 1, 2, … — so sprites with identical keys keep
their submission order, for any number of them. -/
theorem end_sort_stable (cap : Nat) (s : SpriteBatchState)
    (ds : List (Nat × Nat × Int × Int)) :
    List.Pairwise (fun a b => a.sortLayer = b.sortLayer →
        a.orderInLayer = b.orderInLayer → a.seq ≤ b.seq)
      (realizedOrder (End cap (applyDraws (Begin s) ds))) ∧
    List.Perm (realizedOrder (End cap (applyDraws (Begin s) ds)))
      (applyDraws (Begin s) ds).records ∧
    (applyDraws (Begin s) ds).records.map SpriteRecord.seq
      = List.range ds.length := by
  have ha := applyDraws_open ds (Begin s) (by simp [Begin])
  have hopen : (applyDraws (Begin s) ds).sessionOpen = true := by
    rw [ha]; simp [Begin]
  have hrecords : (applyDraws (Begin s) ds).records = mkRecords 0 ds := by
    rw [ha]; simp [Begin]
  have hlen : (applyDraws (Begin s) ds).records.length = ds.length := by
    rw [hrecords, mkRecords_length]
  have hidx : (applyDraws (Begin s) ds).indices = List.range ds.length := by
    rw [ha]; simp [Begin, List.range_eq_range']
  have hre : realizedOrder (End cap (applyDraws (Begin s) ds))
      = (sortIndices (applyDraws (Begin s) ds).records
          (applyDraws (Begin s) ds).indices).map
            (recordAt (applyDraws (Begin s) ds).records) := by
    simp [End, realizedOrder, hopen]
  refine ⟨?_, ?_, ?_⟩
  · rw [hre, List.pairwise_map]
    refine List.Pairwise.imp (fun {i j} hij => ?_) (sortIndices_sorted _ _)
    unfold idxLE lexLE at hij
    intro h1 h2
    omega
  · rw [hre]
    refine (List.Perm.map _ (sortIndices_perm _ _)).trans ?_
    rw [hidx, ← hlen, map_recordAt_range]
  · rw [hrecords, mkRecords_map_seq]
    exact (List.range_eq_range' _).symm

/-- C9: within every frame the index table is a permutation of
`[0, submittedCount)` — established by `Begin`, preserved by every `Draw`
and by the sort in `End` — and sorting permutes only the index table:
`End` leaves the sprite record store exactly as it was appended. -/
theorem index_table_is_permutation (cap : Nat) (s : SpriteBatchState)
    (tex : Option Nat) (payload : Nat) (L O : Int) :
    List.Perm (Begin s).indices (List.range (Begin s).records.length) ∧
    (List.Perm s.indices (List.range s.records.length) →
      List.Perm (Draw s tex payload L O).indices
        (List.range (Draw s tex payload L O).records.length)) ∧
    (List.Perm s.indices (List.range s.records.length) →
      List.Perm (End cap s).indices (List.range (End cap s).records.length)) ∧
    (End cap s).records = s.records := by
  refine ⟨by simp [Begin], ?_, ?_, End_records cap s⟩
  · intro h
    by_cases hso : s.sessionOpen = false
    · simpa [Draw, hso] using h
    · cases tex with
      | none => simpa [Draw, hso] using h
      | some t =>
        simp only [Draw, hso, if_false]
        simp [List.range_succ]
        exact h.append_right [s.records.length]
  · intro h
    by_cases hso : s.sessionOpen = false
    · simpa [End, hso] using h
    · have hso' : s.sessionOpen = true := by
        revert hso; cases s.sessionOpen <;> simp
      rw [End_open cap s hso']
      simpa using (sortIndices_perm s.records s.indices).trans h

/-- Witness for C9: the invariant checked on a concrete frame. -/
theorem index_table_is_permutation_witness :
    List.Perm frameW.indices (List.range frameW.records.length) ∧
    List.Perm (End 8 frameW).indices (List.range (End 8 frameW).records.length) :=
  ⟨by decide, (index_table_is_permutation 8 frameW (some 1) 0 0 0).2.2.1 (by decide)⟩

/-- C10: engine initialization is idempotent at the public interface —
`Initialize` on an already-initialized engine returns success and changes
nothing; `Initialize` always reports success; after `Shutdown` a new
`Initialize` leaves the engine initialized and usable: a full
Begin/Draw…/End cycle then reports exactly the submitted count. -/
theorem init_shutdown_reuse (cap : Nat) (s : SpriteBatchState)
    (ds : List (Nat × Nat × Int × Int)) :
    (s.initialized = true → Initialize s = (true, s)) ∧
    ( Initialize s).1 = true ∧
    ( Initialize (Shutdown s)).2.initialized = true ∧
    GetSpriteCount (End cap (applyDraws (Begin ( Initialize (Shutdown s)).2) ds))
      = ds.length := by
  refine ⟨fun h => by simp [ Initialize, h], ?_, ?_, spriteCount_after_cycle cap _ ds⟩
  · unfold Initialize
    split <;> rfl
  · simp [ Initialize, Shutdown, initState]

/-- Witness for C10: double initialization at a concrete state. -/
theorem init_shutdown_reuse_witness :
    ( Initialize initState).2.initialized = true ∧
    Initialize ( Initialize initState).2 = (true, ( Initialize initState).2) :=
  ⟨rfl, (init_shutdown_reuse 4 ( Initialize initState).2 []).1 rfl⟩

end SpriteBatch

namespace SpriteBatch

/-- Unfolding of the batch walk on an exhausted table. -/
theorem buildAux_nil (recs : List SpriteRecord) (cap tex : Nat) (cur : List Nat) :
    buildAux recs cap [] tex cur = [⟨tex, cur.reverse⟩] :=
  rfl

/-- Unfolding of one step of the batch walk. -/
theorem buildAux_cons (recs : List SpriteRecord) (cap : Nat) (i : Nat)
    (rest : List Nat) (tex : Nat) (cur : List Nat) :
    buildAux recs cap (i :: rest) tex cur =
      if texOf recs i = tex ∧ cur.length < cap then
        buildAux recs cap rest tex (i :: cur)
      else
        ⟨tex, cur.reverse⟩ :: buildAux recs cap rest (texOf recs i) [i] :=
  rfl

/-- Unfolding of the batch builder on a nonempty table. -/
theorem buildBatches_cons (recs : List SpriteRecord) (cap i : Nat)
    (rest : List Nat) :
    buildBatches recs cap (i :: rest) = buildAux recs cap rest (texOf recs i) [i] :=
  rfl

/-- The texture the walk would close the previous batch with after
processing `P`, given that the in-progress batch has texture `tex`. -/
def lastTexD (recs : List SpriteRecord) (P : List Nat) (tex : Nat) : Nat :=
  match P.getLast? with
  | some k => texOf recs k
  | none => tex

/-- The texture of the last record of `P`, when `P` is nonempty. -/
def lastTex? (recs : List SpriteRecord) (P : List Nat) : Option Nat :=
  P.getLast?.map (texOf recs)

theorem lastTexD_cons (recs : List SpriteRecord) (p : Nat) (P : List Nat)
    (tex : Nat) :
    lastTexD recs (p :: P) tex = lastTexD recs P (texOf recs p) := by
  cases P with
  | nil => simp [lastTexD]
  | cons q Q =>
    rcases h : (q :: Q).getLast? with _ | k
    · simp at h
    · simp [lastTexD, List.getLast?_cons_cons, h]

theorem lastTex?_cons (recs : List SpriteRecord) (P : List Nat) :
    ∀ (p : Nat), lastTex? recs (p :: P) = some (lastTexD recs P (texOf recs p)) := by
  induction P with
  | nil => intro p; simp [lastTex?, lastTexD]
  | cons q Q ih =>
    intro p
    rw [show lastTex? recs (p :: q :: Q) = lastTex? recs (q :: Q) from by
        simp [lastTex?, List.getLast?_cons_cons],
      ih q, lastTexD_cons]

/-- The batch walk distributes over a texture boundary: if the element `q`
has a texture different from whatever batch would be in progress after `P`,
then processing `P ++ q :: Q` closes all of `P`'s batches first and then
processes `q :: Q` from scratch. -/
theorem buildAux_append (recs : List SpriteRecord) (cap : Nat) (P : List Nat) :
    ∀ (q : Nat) (Q : List Nat) (tex : Nat) (cur : List Nat),
      texOf recs q ≠ lastTexD recs P tex →
      buildAux recs cap (P ++ q :: Q) tex cur
        = buildAux recs cap P tex cur ++ buildBatches recs cap (q :: Q) := by
  induction P with
  | nil =>
    intro q Q tex cur h
    simp only [lastTexD] at h
    rw [List.nil_append, buildAux_cons, if_neg (fun hc => h hc.1), buildAux_nil,
      buildBatches_cons, List.singleton_append]
  | cons p P' ih =>
    intro q Q tex cur h
    rw [lastTexD_cons] at h
    rw [List.cons_append, buildAux_cons, buildAux_cons]
    by_cases hc : texOf recs p = tex ∧ cur.length < cap
    · rw [if_pos hc, if_pos hc, ih q Q tex (p :: cur) (by rw [hc.1] at h; exact h)]
    · rw [if_neg hc, if_neg hc, ih q Q (texOf recs p) [p] h, List.cons_append]

/-- The batch builder distributes over a texture boundary. -/
theorem buildBatches_append (recs : List SpriteRecord) (cap : Nat)
    (P : List Nat) (q : Nat) (Q : List Nat)
    (h : ∀ u ∈ lastTex? recs P, texOf recs q ≠ u) :
    buildBatches recs cap (P ++ q :: Q)
      = buildBatches recs cap P ++ buildBatches recs cap (q :: Q) := by
  cases P with
  | nil => rfl
  | cons p P' =>
    have hq : texOf recs q ≠ lastTexD recs P' (texOf recs p) :=
      h (lastTexD recs P' (texOf recs p)) (by rw [lastTex?_cons]; rfl)
    rw [List.cons_append, buildBatches_cons, buildBatches_cons]
    exact buildAux_append recs cap P' q Q (texOf recs p) [p] hq

/-- A uniform-texture remainder that fits in the current batch is absorbed
into a single batch. -/
theorem buildAux_uniform_le (recs : List SpriteRecord) (cap t : Nat)
    (R : List Nat) :
    ∀ (cur : List Nat), (∀ i ∈ R, texOf recs i = t) →
      cur.length + R.length ≤ cap →
      buildAux recs cap R t cur = [⟨t, cur.reverse ++ R⟩] := by
  induction R with
  | nil => intro cur _ _; simp [buildAux_nil]
  | cons r R' ih =>
    intro cur hR hlen
    have hc : texOf recs r = t ∧ cur.length < cap :=
      ⟨hR r (by simp), by simp at hlen; omega⟩
    rw [buildAux_cons, if_pos hc,
      ih (r :: cur) (fun i hi => hR i (by simp [hi])) (by simp at hlen ⊢; omega)]
    simp

/-- A uniform-texture remainder that overflows the capacity by exactly one
splits into the filled batch and one leftover batch. -/
theorem buildAux_uniform_split (recs : List SpriteRecord) (cap t : Nat)
    (R : List Nat) :
    ∀ (cur : List Nat), (∀ i ∈ R, texOf recs i = t) → cur.length ≤ cap →
      cur.length + R.length = cap + 1 →
      buildAux recs cap R t cur
        = [⟨t, cur.reverse ++ R.take (cap - cur.length)⟩,
           ⟨t, R.drop (cap - cur.length)⟩] := by
  induction R with
  | nil =>
    intro cur _ hle hlen
    simp only [List.length_nil] at hlen
    omega
  | cons r R' ih =>
    intro cur hR hle hlen
    by_cases hcur : cur.length < cap
    · have hc : texOf recs r = t ∧ cur.length < cap := ⟨hR r (by simp), hcur⟩
      rw [buildAux_cons, if_pos hc,
        ih (r :: cur) (fun i hi => hR i (by simp [hi])) (by simp; omega)
          (by simp at hlen ⊢; omega)]
      have h1 : cap - cur.length = (cap - (cur.length + 1)) + 1 := by omega
      simp only [List.length_cons, List.reverse_cons, h1, List.take_succ_cons,
        List.drop_succ_cons, List.append_assoc, List.singleton_append]
    · have hceq : cur.length = cap := by omega
      have hc : ¬(texOf recs r = t ∧ cur.length < cap) := fun hc => hcur hc.2
      have hR' : R' = [] := by
        have : R'.length = 0 := by simp at hlen; omega
        exact List.length_eq_zero.mp this
      subst hR'
      have htr : texOf recs r = t := hR r (by simp)
      rw [buildAux_cons, if_neg hc, buildAux_nil, htr, hceq]
      simp

/-- A nonempty uniform-texture run not exceeding the capacity becomes
exactly one batch. -/
theorem buildBatches_uniform_le (recs : List SpriteRecord) (cap t : Nat)
    (R : List Nat) (hR : ∀ i ∈ R, texOf recs i = t) (hne : R ≠ [])
    (hlen : R.length ≤ cap) :
    buildBatches recs cap R = [⟨t, R⟩] := by
  cases R with
  | nil => exact absurd rfl hne
  | cons r R' =>
    have htr : texOf recs r = t := hR r (by simp)
    rw [buildBatches_cons, htr,
      buildAux_uniform_le recs cap t R' [r] (fun i hi => hR i (by simp [hi]))
        (by simp at hlen ⊢; omega)]
    simp

/-- A uniform-texture run of length capacity + 1 becomes exactly two
batches split at the capacity boundary. -/
theorem buildBatches_uniform_split (recs : List SpriteRecord) (cap t : Nat)
    (R : List Nat) (hR : ∀ i ∈ R, texOf recs i = t)
    (hlen : R.length = cap + 1) (hcap : 0 < cap) :
    buildBatches recs cap R = [⟨t, R.take cap⟩, ⟨t, R.drop cap⟩] := by
  cases R with
  | nil =>
    simp only [List.length_nil] at hlen
    omega
  | cons r R' =>
    have htr : texOf recs r = t := hR r (by simp)
    rw [buildBatches_cons, htr,
      buildAux_uniform_split recs cap t R' [r] (fun i hi => hR i (by simp [hi]))
        (by simp; omega) (by simp at hlen ⊢; omega)]
    have h2 : cap = (cap - 1) + 1 := by omega
    conv_rhs => rw [h2]
    simp [List.take_succ_cons, List.drop_succ_cons]

end SpriteBatch

namespace SpriteBatch

/-- Unfolding of the batch builder on an empty table. -/
theorem buildBatches_nil (recs : List SpriteRecord) (cap : Nat) :
    buildBatches recs cap [] = [] :=
  rfl

/-- C3: runs of consecutive same-texture sprites in the sorted order split
on the capacity ceiling exactly as stated — for any positive capacity
(hence for `MaxSpritesPerBatch`), a nonempty uniform-texture run bounded on
both sides by different textures (or by the ends of the frame) yields
exactly one batch when its length is at most the capacity (in particular
when it equals the capacity exactly), and exactly two batches when its
length is capacity + 1, the first containing exactly capacity entries. -/
theorem batch_capacity_runs (recs : List SpriteRecord) (cap t : Nat)
    (P R Q : List Nat) (hcap : 0 < cap) (hne : R ≠ [])
    (hR : ∀ i ∈ R, texOf recs i = t)
    (hP : ∀ u ∈ lastTex? recs P, u ≠ t)
    (hQ : ∀ j ∈ Q.head?, texOf recs j ≠ t) :
    (R.length ≤ cap →
      buildBatches recs cap (P ++ R ++ Q)
        = buildBatches recs cap P ++ ⟨t, R⟩ :: buildBatches recs cap Q) ∧
    (R.length = cap + 1 →
      buildBatches recs cap (P ++ R ++ Q)
        = buildBatches recs cap P ++ ⟨t, R.take cap⟩ :: ⟨t, R.drop cap⟩ ::
            buildBatches recs cap Q ∧
      (R.take cap).length = cap) := by
  cases R with
  | nil => exact absurd rfl hne
  | cons r R' =>
    have htr : texOf recs r = t := hR r (by simp)
    have hbound1 : ∀ u ∈ lastTex? recs P, texOf recs r ≠ u := by
      intro u hu
      rw [htr]
      exact fun he => hP u hu he.symm
    have hlast : lastTexD recs R' (texOf recs r) = t := by
      cases hL : R'.getLast? with
      | none => simp [lastTexD, hL, htr]
      | some k =>
        have hk : k ∈ R' := List.mem_of_mem_getLast? (by rw [hL]; rfl)
        simp only [lastTexD, hL]
        exact hR k (by simp [hk])
    have hsplit : buildBatches recs cap (P ++ (r :: R') ++ Q)
        = buildBatches recs cap P ++ buildBatches recs cap (r :: R')
            ++ buildBatches recs cap Q := by
      have e1 : P ++ (r :: R') ++ Q = P ++ r :: (R' ++ Q) := by
        simp [List.append_assoc]
      rw [e1, buildBatches_append recs cap P r (R' ++ Q) hbound1,
        List.append_assoc]
      congr 1
      cases Q with
      | nil => simp [buildBatches_nil]
      | cons q Q' =>
        have hb2 : ∀ u ∈ lastTex? recs (r :: R'), texOf recs q ≠ u := by
          intro u hu
          rw [lastTex?_cons] at hu
          simp only [Option.mem_def, Option.some.injEq] at hu
          subst hu
          rw [hlast]
          exact hQ q rfl
        have e2 : r :: (R' ++ q :: Q') = (r :: R') ++ q :: Q' := by simp
        rw [e2, buildBatches_append recs cap (r :: R') q Q' hb2]
    refine ⟨fun hlen => ?_, fun hlen => ⟨?_, ?_⟩⟩
    · rw [hsplit, buildBatches_uniform_le recs cap t (r :: R') hR hne hlen]
      simp
    · rw [hsplit, buildBatches_uniform_split recs cap t (r :: R') hR hlen hcap]
      simp
    · rw [List.length_take]
      omega

/-- Witness for C3: a three-entry uniform run against capacity 2 splits into
a full batch of 2 and a leftover batch of 1. -/
theorem batch_capacity_runs_witness :
    (buildBatches [] 2 ([] ++ [0, 1, 2] ++ [])
      = buildBatches [] 2 [] ++ ⟨0, [0, 1, 2].take 2⟩ :: ⟨0, [0, 1, 2].drop 2⟩ ::
          buildBatches [] 2 []) ∧
    (([0, 1, 2] : List Nat).take 2).length = 2 :=
  (batch_capacity_runs [] 2 0 [] [0, 1, 2] [] (by decide) (by decide) (by decide)
    (by decide) (by decide)).2 (by decide)

end SpriteBatch

namespace SpriteBatch

/-- The first batch the walk emits carries the in-progress texture. -/
theorem buildAux_head_texture (recs : List SpriteRecord) (cap : Nat)
    (rem : List Nat) :
    ∀ (tex : Nat) (cur : List Nat) (b : Batch),
      b ∈ (buildAux recs cap rem tex cur).head? → b.texture = tex := by
  induction rem with
  | nil =>
    intro tex cur b hb
    rw [buildAux_nil] at hb
    simp only [List.head?_cons, Option.mem_def, Option.some.injEq] at hb
    rw [← hb]
  | cons x rest ih =>
    intro tex cur b hb
    rw [buildAux_cons] at hb
    by_cases hc : texOf recs x = tex ∧ cur.length < cap
    · rw [if_pos hc] at hb
      exact ih tex (x :: cur) b hb
    · rw [if_neg hc] at hb
      simp only [List.head?_cons, Option.mem_def, Option.some.injEq] at hb
      rw [← hb]

/-- The walk's full contract: its batches concatenate back to the processed
input, every batch is nonempty, capacity-bounded and texture-homogeneous,
and every adjacent pair of batches is separated by a texture change or a
full first batch. -/
theorem buildAux_spec (recs : List SpriteRecord) (cap : Nat) (hcap : 0 < cap)
    (rem : List Nat) :
    ∀ (tex : Nat) (cur : List Nat), cur ≠ [] → cur.length ≤ cap →
      (∀ i ∈ cur, texOf recs i = tex) →
      ((buildAux recs cap rem tex cur).map Batch.entries).flatten
          = cur.reverse ++ rem ∧
      (∀ b ∈ buildAux recs cap rem tex cur,
        b.entries ≠ [] ∧ b.entries.length ≤ cap ∧
          ∀ i ∈ b.entries, texOf recs i = b.texture) ∧
      List.Chain' (fun b1 b2 => b1.texture ≠ b2.texture ∨ b1.entries.length = cap)
        (buildAux recs cap rem tex cur) := by
  induction rem with
  | nil =>
    intro tex cur hne hle hcur
    rw [buildAux_nil]
    refine ⟨by simp, ?_, by simp⟩
    intro b hb
    simp only [List.mem_singleton] at hb
    subst hb
    refine ⟨by simpa using hne, by simpa using hle, ?_⟩
    intro i hi
    exact hcur i (by simpa using hi)
  | cons x rest ih =>
    intro tex cur hne hle hcur
    rw [buildAux_cons]
    by_cases hc : texOf recs x = tex ∧ cur.length < cap
    · rw [if_pos hc]
      have hcurtex : ∀ i ∈ x :: cur, texOf recs i = tex := by
        intro i hi
        rcases List.mem_cons.mp hi with rfl | hi
        · exact hc.1
        · exact hcur i hi
      obtain ⟨hflat, hprops, hchain⟩ :=
        ih tex (x :: cur) (by simp) (by simp; omega) hcurtex
      refine ⟨?_, hprops, hchain⟩
      rw [hflat]
      simp
    · rw [if_neg hc]
      obtain ⟨hflat, hprops, hchain⟩ :=
        ih (texOf recs x) [x] (by simp) (by simpa using hcap) (by simp)
      refine ⟨?_, ?_, ?_⟩
      · simp [hflat]
      · intro b hb
        rcases List.mem_cons.mp hb with rfl | hb
        · exact ⟨by simpa using hne, by simpa using hle,
            fun i hi => hcur i (by simpa using hi)⟩
        · exact hprops b hb
      · rw [List.chain'_cons']
        refine ⟨?_, hchain⟩
        intro y hy
        have hyt : y.texture = texOf recs x :=
          buildAux_head_texture recs cap rest (texOf recs x) [x] y hy
        rcases not_and_or.mp hc with h | h
        · left
          rw [hyt]
          exact fun he => h he.symm
        · right
          simp
          omega

/-- At least two batches arise whenever two processed entries have
different textures. -/
theorem two_textures_two_batches (recs : List SpriteRecord) (cap : Nat)
    (l : List Nat)
    (hflat : ((buildBatches recs cap l).map Batch.entries).flatten = l)
    (hbatch : ∀ b ∈ buildBatches recs cap l, b.entries ≠ [] ∧
      b.entries.length ≤ cap ∧ ∀ i ∈ b.entries, texOf recs i = b.texture)
    (i j : Nat) (hi : i ∈ l) (hj : j ∈ l)
    (hne : texOf recs i ≠ texOf recs j) :
    2 ≤ (buildBatches recs cap l).length := by
  rcases hb : buildBatches recs cap l with _ | ⟨b, bs⟩
  · rw [hb] at hflat
    simp only [List.map_nil, List.flatten_nil] at hflat
    rw [← hflat] at hi
    simp at hi
  · cases bs with
    | nil =>
      rw [hb] at hflat
      simp only [List.map_cons, List.map_nil, List.flatten_cons,
        List.flatten_nil, List.append_nil] at hflat
      have h1 := (hbatch b (by rw [hb]; simp)).2.2 i (by rw [hflat]; exact hi)
      have h2 := (hbatch b (by rw [hb]; simp)).2.2 j (by rw [hflat]; exact hj)
      exact absurd (h1.trans h2.symm) hne
    | cons b2 bs' => simp

/-- C4: the Batch Builder partitions the sorted index table into maximal
runs — the concatenation of all batches equals the processed sorted order;
every batch is nonempty, capacity-bounded and texture-homogeneous; a new
batch starts only at a texture change or when the previous batch is full;
`End` sets the draw-call counter to exactly the number of batches of the
sorted order; and a sorted order containing two different textures yields
at least two batches (hence at least two draw calls). -/
theorem batch_builder_partition (recs : List SpriteRecord) (cap : Nat)
    (l : List Nat) (hcap : 0 < cap) :
    ((buildBatches recs cap l).map Batch.entries).flatten = l ∧
    (∀ b ∈ buildBatches recs cap l, b.entries ≠ [] ∧ b.entries.length ≤ cap ∧
      ∀ i ∈ b.entries, texOf recs i = b.texture) ∧
    List.Chain' (fun b1 b2 => b1.texture ≠ b2.texture ∨ b1.entries.length = cap)
      (buildBatches recs cap l) ∧
    (∀ s : SpriteBatchState, s.sessionOpen = true →
      GetDrawCallCount (End cap s)
        = (buildBatches s.records cap (sortIndices s.records s.indices)).length) ∧
    ((∃ i ∈ l, ∃ j ∈ l, texOf recs i ≠ texOf recs j) →
      2 ≤ (buildBatches recs cap l).length) := by
  have habc : ((buildBatches recs cap l).map Batch.entries).flatten = l ∧
      (∀ b ∈ buildBatches recs cap l, b.entries ≠ [] ∧
        b.entries.length ≤ cap ∧ ∀ i ∈ b.entries, texOf recs i = b.texture) ∧
      List.Chain' (fun b1 b2 => b1.texture ≠ b2.texture ∨ b1.entries.length = cap)
        (buildBatches recs cap l) := by
    cases l with
    | nil =>
      refine ⟨by simp [buildBatches_nil], ?_, by simp [buildBatches_nil]⟩
      intro b hb
      rw [buildBatches_nil] at hb
      simp at hb
    | cons x rest =>
      obtain ⟨hflat, hprops, hchain⟩ :=
        buildAux_spec recs cap hcap rest (texOf recs x) [x] (by simp)
          (by simpa using hcap) (by simp)
      rw [buildBatches_cons]
      refine ⟨?_, hprops, hchain⟩
      rw [hflat]
      simp
  refine ⟨habc.1, habc.2.1, habc.2.2, ?_, ?_⟩
  · intro s hs
    rw [End_open cap s hs]
    rfl
  · rintro ⟨i, hi, jx, hj, hne⟩
    exact two_textures_two_batches recs cap l habc.1 habc.2.1 i jx hi hj hne

/-- Witness for C4: alternating textures in a concrete frame concatenate
back to the processed order. -/
theorem batch_builder_partition_witness :
    ((buildBatches frameW.records 8 [0, 1, 2]).map Batch.entries).flatten
      = [0, 1, 2] :=
  (batch_builder_partition frameW.records 8 [0, 1, 2] (by decide)).1

end SpriteBatch

namespace SpriteBatch

/-- Witness for C2: two sprites submitted with identical keys keep their
submission order in a concrete frame. -/
theorem end_sort_stable_witness :
    List.Pairwise (fun a b => a.sortLayer = b.sortLayer →
        a.orderInLayer = b.orderInLayer → a.seq ≤ b.seq)
      (realizedOrder (End 8 (applyDraws (Begin initState)
        [(1, 0, 0, 0), (1, 0, 0, 0)]))) ∧
    List.Perm
      (realizedOrder (End 8 (applyDraws (Begin initState)
        [(1, 0, 0, 0), (1, 0, 0, 0)])))
      (applyDraws (Begin initState) [(1, 0, 0, 0), (1, 0, 0, 0)]).records ∧
    (applyDraws (Begin initState)
        [(1, 0, 0, 0), (1, 0, 0, 0)]).records.map SpriteRecord.seq
      = List.range 2 :=
  end_sort_stable 8 initState [(1, 0, 0, 0), (1, 0, 0, 0)]

end SpriteBatch
